import Mathlib

/-!
# Verification of the winwin-cli knowledge-base search core

A shallow embedding, in Lean 4, of the knowledge-base indexing and retrieval
subsystem of winwin-cli (`src/winwin_cli/kb_search/`), together with theorems
settling the behavioural claims made about it.

Embedding conventions:
* A corpus entry (a dict `{"path", "title", "content"}` in
  `BM25Indexer.corpus`) is the structure `Doc`.
* Python lists become Lean `List`s; the stable descending sort performed by
  `list.sort(key=..., reverse=True)` is modelled by a stable insertion sort
  (`sortHitsDesc`), which matches CPython's stable sort semantics.
* IEEE-754 floats are modelled by `Score`: either `nan` (for which the
  Python check `score != score` is true) or an exact rational `val q`.
* The external `rank_bm25.BM25Okapi` scorer is embedded by `getScores`,
  keeping its per-term IDF table abstract (it involves logarithms) but
  computing the rational part of the Okapi formula exactly; the external
  `jieba` tokenizer is an abstract parameter `tokenize`.
* File-system effects touch a single index directory, modelled by
  `IndexDirFS` (does the directory exist; the JSON corpus artifact, if any).
  `json.dump`/`json.load` of the corpus list are treated as exact inverses
  (a contract of the Python standard library, not of this repository).
* `pydantic` field-constraint validation is modelled by explicit checks
  returning `Option`/`Except` (a raised `ValidationError` becomes
  `none`/`.error`).
-/

namespace WinwinKB

/-- One entry of `BM25Indexer.corpus`: the dicts built in
`BM25Indexer.add_document` have exactly the keys `path`, `title`,
`content`. -/
structure Doc where
  path : String
  title : String
  content : String
deriving DecidableEq, Repr

/-! ## `BM25Indexer` corpus mutations (indexer.py)

`add_document` scans the corpus for an entry with the same `path`; the first
such entry is overwritten in place, otherwise the new entry is appended
(indexer.py lines 69-93, ignoring the `_save_index` persistence side effect,
which is modelled separately). -/

/-- `BM25Indexer.add_document(path, title, content)` acting on the corpus
list: replace the first entry whose `path` matches, else append. -/
def add_document (corpus : List Doc) (path title content : String) : List Doc :=
  match corpus with
  | [] => [⟨path, title, content⟩]
  | d :: rest =>
    if d.path = path then ⟨path, title, content⟩ :: rest
    else d :: add_document rest path title content

/-- `BM25Indexer.delete_document(path)`: keep every entry whose `path`
differs (indexer.py lines 214-221). -/
def delete_document (corpus : List Doc) (path : String) : List Doc :=
  corpus.filter (fun d => d.path ≠ path)

/-- `BM25Indexer.clear()`: the corpus becomes empty (indexer.py lines
223-228). -/
def clearCorpus : List Doc := []

/-- `BM25Indexer.count()` (indexer.py lines 230-232). -/
def countDocs (corpus : List Doc) : Nat := corpus.length

/-! ### C1: upsert semantics of `add_document` -/

theorem add_document_of_not_mem (corpus : List Doc) (p t c : String)
    (h : ∀ d ∈ corpus, d.path ≠ p) :
    add_document corpus p t c = corpus ++ [⟨p, t, c⟩] := by
  induction corpus with
  | nil => rfl
  | cons d rest ih =>
    have hd : d.path ≠ p := h d (List.mem_cons_self d rest)
    simp only [add_document, if_neg hd, List.cons_append, List.cons.injEq, true_and]
    exact ih (fun d' hd' => h d' (List.mem_cons_of_mem d hd'))

theorem add_document_of_mem (corpus : List Doc) (p t c : String)
    (h : ∃ d ∈ corpus, d.path = p) :
    add_document corpus p t c =
      corpus.set (corpus.findIdx (fun d => d.path = p)) ⟨p, t, c⟩ := by
  induction corpus with
  | nil => simp at h
  | cons d rest ih =>
    by_cases hd : d.path = p
    · simp [add_document, hd, List.findIdx_cons]
    · obtain ⟨d', hd', hp'⟩ := h
      rcases List.mem_cons.mp hd' with rfl | hmem
      · exact absurd hp' hd
      · simp [add_document, hd, List.findIdx_cons]
        exact ih ⟨d', hmem, hp'⟩

theorem findIdx_path_eq (corpus : List Doc) (p : String)
    (h : ∃ d ∈ corpus, d.path = p) :
    ∃ hlt : corpus.findIdx (fun d => d.path = p) < corpus.length,
      (corpus.get ⟨corpus.findIdx (fun d => d.path = p), hlt⟩).path = p := by
  obtain ⟨d, hd, hp⟩ := h
  have hlt : corpus.findIdx (fun d => d.path = p) < corpus.length :=
    List.findIdx_lt_length_of_exists ⟨d, hd, by simp [hp]⟩
  refine ⟨hlt, ?_⟩
  have := List.findIdx_getElem (p := fun x : Doc => decide (x.path = p)) (w := hlt)
  simpa [List.get_eq_getElem] using this

/-- **C1.** `add_document` is an upsert: with a fresh `path` the corpus grows
by exactly one document, appended at the end; with an existing `path` the
count is unchanged and the (first) document carrying that `path` is replaced
in place. -/
theorem c1_add_document_upsert (corpus : List Doc) (p t c : String) :
    ((¬ ∃ d ∈ corpus, d.path = p) →
       countDocs (add_document corpus p t c) = countDocs corpus + 1 ∧
       add_document corpus p t c = corpus ++ [⟨p, t, c⟩]) ∧
    ((∃ d ∈ corpus, d.path = p) →
       countDocs (add_document corpus p t c) = countDocs corpus ∧
       (∃ hlt : corpus.findIdx (fun d => d.path = p) < corpus.length,
          (corpus.get ⟨corpus.findIdx (fun d => d.path = p), hlt⟩).path = p) ∧
       add_document corpus p t c =
         corpus.set (corpus.findIdx (fun d => d.path = p)) ⟨p, t, c⟩) := by
  constructor
  · intro h
    have h' : ∀ d ∈ corpus, d.path ≠ p := by
      intro d hd hp
      exact h ⟨d, hd, hp⟩
    rw [add_document_of_not_mem corpus p t c h']
    simp [countDocs]
  · intro h
    refine ⟨?_, findIdx_path_eq corpus p h, add_document_of_mem corpus p t c h⟩
    rw [add_document_of_mem corpus p t c h]
    simp [countDocs]

/-- Witness for C1 at a concrete corpus: fresh path appends, existing path
replaces in place. -/
theorem c1_add_document_upsert_witness :
    (countDocs (add_document [⟨"a.md", "A", "x"⟩] "b.md" "B" "y") = 2 ∧
     add_document [⟨"a.md", "A", "x"⟩] "b.md" "B" "y" =
       [⟨"a.md", "A", "x"⟩, ⟨"b.md", "B", "y"⟩]) ∧
    (countDocs (add_document [⟨"a.md", "A", "x"⟩] "a.md" "A2" "z") = 1 ∧
     add_document [⟨"a.md", "A", "x"⟩] "a.md" "A2" "z" = [⟨"a.md", "A2", "z"⟩]) := by
  refine ⟨?_, ?_⟩
  · have h := (c1_add_document_upsert [⟨"a.md", "A", "x"⟩] "b.md" "B" "y").1 (by decide)
    exact ⟨h.1, h.2⟩
  · have h := (c1_add_document_upsert [⟨"a.md", "A", "x"⟩] "a.md" "A2" "z").2 (by decide)
    exact ⟨h.1, by simpa using h.2.2⟩

/-! ### C2: the at-most-one-document-per-path invariant -/

/-- The corpus-mutating operations of `BM25Indexer`. -/
inductive CorpusOp where
  | upsert (p t c : String)
  | delete (p : String)
  | clear
deriving DecidableEq, Repr

/-- Apply one `BM25Indexer` mutation to the corpus. -/
def applyOp (corpus : List Doc) : CorpusOp → List Doc
  | .upsert p t c => add_document corpus p t c
  | .delete p => delete_document corpus p
  | .clear => clearCorpus

/-- Apply a sequence of mutations, left to right. -/
def applyOps (corpus : List Doc) (ops : List CorpusOp) : List Doc :=
  ops.foldl applyOp corpus

/-- The invariant: no two corpus entries share a `path`. -/
def PathsNodup (corpus : List Doc) : Prop := (corpus.map Doc.path).Nodup

theorem mem_path_add_document {corpus : List Doc} {p t c : String} {x : String}
    (h : x ∈ (add_document corpus p t c).map Doc.path) :
    x ∈ corpus.map Doc.path ∨ x = p := by
  induction corpus with
  | nil => simpa [add_document] using h
  | cons d rest ih =>
    by_cases hd : d.path = p
    · simp only [add_document, if_pos hd, List.map_cons, List.mem_cons] at h ⊢
      rcases h with h | h
      · exact Or.inr h
      · exact Or.inl (Or.inr h)
    · simp only [add_document, if_neg hd, List.map_cons, List.mem_cons] at h ⊢
      rcases h with h | h
      · exact Or.inl (Or.inl h)
      · rcases ih h with h' | h'
        · exact Or.inl (Or.inr h')
        · exact Or.inr h'

theorem pathsNodup_add_document {corpus : List Doc} (p t c : String)
    (h : PathsNodup corpus) : PathsNodup (add_document corpus p t c) := by
  induction corpus with
  | nil => simp [add_document, PathsNodup]
  | cons d rest ih =>
    simp only [PathsNodup, List.map_cons, List.nodup_cons] at h
    by_cases hd : d.path = p
    · simp only [PathsNodup, add_document, if_pos hd, List.map_cons, List.nodup_cons]
      exact ⟨by simpa [hd] using h.1, h.2⟩
    · simp only [PathsNodup, add_document, if_neg hd, List.map_cons, List.nodup_cons]
      refine ⟨?_, ih h.2⟩
      intro hmem
      rcases mem_path_add_document hmem with h' | h'
      · exact h.1 h'
      · exact hd h'

theorem pathsNodup_delete_document {corpus : List Doc} (p : String)
    (h : PathsNodup corpus) : PathsNodup (delete_document corpus p) :=
  List.Nodup.sublist (List.Sublist.map Doc.path (List.filter_sublist corpus)) h

theorem pathsNodup_applyOp {corpus : List Doc} (op : CorpusOp)
    (h : PathsNodup corpus) : PathsNodup (applyOp corpus op) := by
  cases op with
  | upsert p t c => exact pathsNodup_add_document p t c h
  | delete p => exact pathsNodup_delete_document p h
  | clear => simp [applyOp, clearCorpus, PathsNodup]

/-- **C2.** Starting from the empty corpus, any sequence of
`add_document`/`delete_document`/`clear` operations leaves at most one
document per distinct `path`. -/
theorem c2_paths_nodup_invariant (ops : List CorpusOp) :
    PathsNodup (applyOps [] ops) := by
  suffices h : ∀ corpus, PathsNodup corpus → PathsNodup (applyOps corpus ops) by
    exact h [] (by simp [PathsNodup])
  induction ops with
  | nil => intro corpus h; simpa [applyOps] using h
  | cons op rest ih =>
    intro corpus h
    exact ih (applyOp corpus op) (pathsNodup_applyOp op h)

/-! ## Persistence (`_save_index` / `_load_index`)

The corpus is serialized to a single JSON artifact `corpus.json` inside the
index directory. The JSON value is a list of records with the keys `path`,
`title`, `content`; `json.dump` followed by `json.load` reproduces that list
exactly (standard-library contract). The state of the one index directory a
`BM25Indexer` touches is `IndexDirFS`. -/

/-- A serialized corpus entry, as stored in `corpus.json`. -/
structure DocRecord where
  path : String
  title : String
  content : String
deriving DecidableEq, Repr

/-- Serialization of one corpus entry performed by `json.dump`. -/
def docToRecord (d : Doc) : DocRecord := ⟨d.path, d.title, d.content⟩

/-- Deserialization of one corpus entry performed by `json.load`. -/
def recordToDoc (r : DocRecord) : Doc := ⟨r.path, r.title, r.content⟩

/-- The observable state of one index directory: whether the directory
exists, and the content of `corpus.json` when that file exists. -/
structure IndexDirFS where
  dirExists : Bool
  corpusFile : Option (List DocRecord)
deriving DecidableEq, Repr

/-- `BM25Indexer._save_index`: overwrite `corpus.json` with the serialized
corpus (indexer.py lines 106-110; the `_build_bm25` side effect rebuilds
derived state and does not touch the artifact). -/
def saveIndex (corpus : List Doc) (fs : IndexDirFS) : IndexDirFS :=
  { fs with corpusFile := some (corpus.map docToRecord) }

/-- `BM25Indexer.__init__` / `_load_index` (indexer.py lines 26-47): create
the index directory if absent, then load the corpus from `corpus.json`,
falling back to the empty corpus when the file does not exist. Returns the
updated directory state and the loaded corpus. -/
def loadIndex (fs : IndexDirFS) : IndexDirFS × List Doc :=
  ({ fs with dirExists := true },
   match fs.corpusFile with
   | some records => records.map recordToDoc
   | none => [])

/-- **C3.** Persisting a corpus and then loading a fresh indexer from the
same index directory yields a document list identical, element by element,
in path, title and content to the corpus before persistence. -/
theorem c3_persist_roundtrip (corpus : List Doc) (fs : IndexDirFS) :
    (loadIndex (saveIndex corpus fs)).2 = corpus := by
  simp only [loadIndex, saveIndex, List.map_map]
  have : recordToDoc ∘ docToRecord = id := by
    funext d
    rfl
  simp [this]

/-! ## Search (`BM25Indexer.search`, indexer.py lines 112-179)

Scores come from the external `rank_bm25.BM25Okapi` model as one IEEE-754
float per corpus position. `Score` models a float as either `nan` (the only
value for which the code's `score != score` check is true) or an exact
rational. -/

/-- A BM25 score: IEEE NaN or an exact rational value. -/
inductive Score where
  | nan : Score
  | val : ℚ → Score
deriving DecidableEq, Repr

/-- The Python check `score != score` performed at indexer.py line 146:
true exactly for NaN. -/
def Score.selfNe : Score → Bool
  | .nan => true
  | .val _ => false

/-- Does `cs` start with `ns` (character-wise)? -/
def startsWithChars : List Char → List Char → Bool
  | _, [] => true
  | [], _ :: _ => false
  | c :: cs, n :: ns => c = n && startsWithChars cs ns

/-- Does `hay` contain `needle` as a contiguous run of characters? -/
def containsChars : List Char → List Char → Bool
  | [], needle => needle.isEmpty
  | hay@(_ :: t), needle => startsWithChars hay needle || containsChars t needle

/-- The Python substring test `sub in hay` on strings. -/
def strContains (hay sub : String) : Bool :=
  containsChars hay.data sub.data

/-- The directory filter of indexer.py lines 151-160, including the Python
truthiness check `if dirs:`: a `None` or empty list means no filtering;
otherwise a document passes when some given directory string occurs as a
substring of its stored path. -/
def dirMatch (dirs : Option (List String)) (path : String) : Bool :=
  match dirs with
  | none => true
  | some ds => if ds.isEmpty then true else ds.any (fun d => strContains path d)

/-- A ranking candidate: corpus position, its (non-NaN) score, and the
document at that position (`doc = self.corpus[i]`). -/
structure Cand where
  idx : Nat
  score : ℚ
  doc : Doc
deriving DecidableEq, Repr

/-- The `filtered` list built at indexer.py lines 142-162: enumerate the
scores positionally against the corpus, drop NaN scores, and apply the
directory filter. -/
def filteredHits (corpus : List Doc) (scores : List Score)
    (dirs : Option (List String)) : List Cand :=
  (scores.zip corpus).enum.filterMap (fun e =>
    match e.2.1 with
    | Score.nan => none
    | Score.val q => if dirMatch dirs e.2.2.path then some ⟨e.1, q, e.2.2⟩ else none)

/-- Insert a candidate into a descending-sorted list, after every element
with an equal or larger score (preserving first-come order on ties, like
CPython's stable sort). -/
def insertCandDesc (x : Cand) : List Cand → List Cand
  | [] => [x]
  | y :: ys => if y.score < x.score then x :: y :: ys else y :: insertCandDesc x ys

/-- `filtered.sort(key=lambda x: x[1], reverse=True)` (indexer.py line 165):
a stable descending sort by score. -/
def sortCandsDesc (l : List Cand) : List Cand :=
  l.foldl (fun acc x => insertCandDesc x acc) []

/-- One yielded search hit (indexer.py lines 168-179; the optional
`content`/`highlights` fields are not modelled, no claim concerns them). -/
structure Hit where
  path : String
  title : String
  score : ℚ
deriving DecidableEq, Repr

/-- Indexer.py lines 141-179: filter, sort descending by score, truncate to
`limit`, and yield path/title/score records. -/
def searchScored (corpus : List Doc) (scores : List Score)
    (dirs : Option (List String)) (limit : Nat) : List Hit :=
  ((sortCandsDesc (filteredHits corpus scores dirs)).take limit).map
    (fun x => ⟨x.doc.path, x.doc.title, x.score⟩)

/-! ### The `rank_bm25.BM25Okapi` scorer

`get_scores` is embedded with exact rational arithmetic; the per-term IDF
table (whose computation involves logarithms and the epsilon floor for
negative IDFs) is kept abstract as a function `idf : String → ℚ`. What the
embedding keeps exact is the part the claims depend on: a term with zero
frequency in a document contributes exactly zero to that document's score,
and when the corpus holds no tokens at all the float arithmetic degenerates
to `0/0` and every (nonempty-query) score is NaN. -/

/-- Okapi `k1` default. -/
def k1 : ℚ := 3 / 2

/-- Okapi `b` default. -/
def bParam : ℚ := 3 / 4

/-- Occurrences of term `t` among a document's tokens. -/
def termFreq (t : String) (toks : List String) : ℚ := (toks.count t : ℚ)

/-- Total number of tokens across the tokenized corpus. -/
def totalTokens (corpusToks : List (List String)) : Nat :=
  (corpusToks.map List.length).sum

/-- The Okapi score of one document for query `q`, given the average
document length `avgdl` (assumed positive). -/
def bm25DocScore (idf : String → ℚ) (avgdl : ℚ) (q : List String)
    (toks : List String) : ℚ :=
  (q.map (fun t =>
    idf t * (termFreq t toks * (k1 + 1)) /
      (termFreq t toks + k1 * (1 - bParam + bParam * (toks.length : ℚ) / avgdl)))).sum

/-- `BM25Okapi.get_scores`: one score per corpus position. An empty query
yields the zero-initialized score vector; a corpus with no tokens at all
makes the length normalization `0/0` and the scores NaN. -/
def getScores (idf : String → ℚ) (corpusToks : List (List String))
    (q : List String) : List Score :=
  if q.isEmpty then corpusToks.map (fun _ => Score.val 0)
  else if totalTokens corpusToks = 0 then corpusToks.map (fun _ => Score.nan)
  else
    let avgdl : ℚ := (totalTokens corpusToks : ℚ) / (corpusToks.length : ℚ)
    corpusToks.map (fun toks => Score.val (bm25DocScore idf avgdl q toks))

/-- `BM25Indexer.search` (indexer.py lines 112-179): return nothing for an
empty query or an absent BM25 model (`self.bm25` is `None` exactly when the
corpus is empty); otherwise tokenize the query, score every document and
run the filter/sort/truncate pipeline. `tokenize` abstracts `jieba.cut`. -/
def bm25Search (tokenize : String → List String) (idf : String → ℚ)
    (corpus : List Doc) (query : String) (limit : Nat)
    (dirs : Option (List String)) : List Hit :=
  if query.isEmpty || corpus.isEmpty then []
  else
    searchScored corpus
      (getScores idf (corpus.map (fun d => tokenize d.content)) (tokenize query))
      dirs limit

/-! ## Wrapping hits into `SearchResult` (models.py, indexer.py lines 494-531) -/

/-- The pydantic `SearchResult` model (models.py lines 59-64). -/
structure SearchResult where
  document : Doc
  score : ℚ
  highlights : List String
deriving DecidableEq, Repr

/-- Constructing a pydantic `SearchResult`: the `score` field is declared
`Field(..., ge=0.0)`, so validation raises on a negative score. -/
def mkSearchResult (document : Doc) (score : ℚ) (highlights : List String) :
    Except String SearchResult :=
  if score < 0 then Except.error "ValidationError: score >= 0 required"
  else Except.ok ⟨document, score, highlights⟩

/-- The wrapping loop of `KnowledgeBaseIndexer.search` (indexer.py lines
517-529): each raw hit is wrapped into a `SearchResult`; a pydantic
validation failure aborts the whole call. -/
def wrapHits : List Hit → Except String (List SearchResult)
  | [] => Except.ok []
  | h :: t =>
    match mkSearchResult ⟨h.path, h.title, ""⟩ h.score [] with
    | Except.error e => Except.error e
    | Except.ok r =>
      match wrapHits t with
      | Except.error e => Except.error e
      | Except.ok rs => Except.ok (r :: rs)

/-- `KnowledgeBaseIndexer.search`: run the corpus search, then wrap every
hit (indexer.py lines 494-531; the fresh `BM25Indexer` construction is the
corpus-loading step, taken here as the `corpus` argument). -/
def kbIndexerSearch (tokenize : String → List String) (idf : String → ℚ)
    (corpus : List Doc) (query : String) (limit : Nat)
    (dirs : Option (List String)) : Except String (List SearchResult) :=
  wrapHits (bm25Search tokenize idf corpus query limit dirs)

/-! ### Concrete tokenizer for witnesses and counterexamples

`jieba.cut` treats whitespace-delimited ASCII text as already segmented
(spec §4.1), so on such inputs it behaves as a whitespace splitter. The
concrete instances below only use content of that shape. -/

def wsTokAux : List Char → List Char → List String
  | [], acc => if acc.isEmpty then [] else [String.mk acc.reverse]
  | c :: cs, acc =>
    if c = ' ' then
      if acc.isEmpty then wsTokAux cs [] else String.mk acc.reverse :: wsTokAux cs []
    else wsTokAux cs (c :: acc)

/-- Whitespace word segmentation: the behaviour of the tokenizer on
whitespace-delimited ASCII text. -/
def wsTok (s : String) : List String := wsTokAux s.data []

/-! ### Properties of the sort and of the candidate set -/

theorem insertCandDesc_perm (x : Cand) (l : List Cand) :
    (insertCandDesc x l).Perm (x :: l) := by
  induction l with
  | nil => exact List.Perm.refl _
  | cons y ys ih =>
    by_cases h : y.score < x.score
    · simp [insertCandDesc, h]
    · simp only [insertCandDesc, if_neg h]
      exact ((ih.cons y).trans (List.Perm.swap x y ys))

theorem sortCandsDesc_perm (l : List Cand) : (sortCandsDesc l).Perm l := by
  suffices h : ∀ acc : List Cand,
      (List.foldl (fun acc x => insertCandDesc x acc) acc l).Perm (acc ++ l) by
    simpa using h []
  induction l with
  | nil => intro acc; simp
  | cons x xs ih =>
    intro acc
    have h1 : (List.foldl (fun acc x => insertCandDesc x acc) (insertCandDesc x acc) xs).Perm
        (insertCandDesc x acc ++ xs) := ih (insertCandDesc x acc)
    have h2 : (insertCandDesc x acc ++ xs).Perm ((x :: acc) ++ xs) :=
      (insertCandDesc_perm x acc).append_right xs
    have h3 : ((x :: acc) ++ xs).Perm (acc ++ x :: xs) := List.perm_middle.symm
    exact (h1.trans h2).trans h3

theorem insertCandDesc_pairwise {x : Cand} {l : List Cand}
    (h : l.Pairwise (fun a b => b.score ≤ a.score)) :
    (insertCandDesc x l).Pairwise (fun a b => b.score ≤ a.score) := by
  induction l with
  | nil => simp [insertCandDesc]
  | cons y ys ih =>
    rcases List.pairwise_cons.mp h with ⟨hy, hys⟩
    by_cases hlt : y.score < x.score
    · simp only [insertCandDesc, if_pos hlt]
      refine List.pairwise_cons.mpr ⟨?_, h⟩
      intro z hz
      rcases List.mem_cons.mp hz with rfl | hz'
      · exact le_of_lt hlt
      · exact le_trans (hy z hz') (le_of_lt hlt)
    · simp only [insertCandDesc, if_neg hlt]
      refine List.pairwise_cons.mpr ⟨?_, ih hys⟩
      intro z hz
      rcases (insertCandDesc_perm x ys).mem_iff.mp hz with hz'
      rcases List.mem_cons.mp hz' with rfl | hz''
      · exact le_of_not_lt hlt
      · exact hy z hz''

theorem sortCandsDesc_sorted (l : List Cand) :
    (sortCandsDesc l).Pairwise (fun a b => b.score ≤ a.score) := by
  suffices h : ∀ acc : List Cand, acc.Pairwise (fun a b => b.score ≤ a.score) →
      (List.foldl (fun acc x => insertCandDesc x acc) acc l).Pairwise
        (fun a b => b.score ≤ a.score) by
    exact h [] (by simp)
  induction l with
  | nil => intro acc hacc; simpa using hacc
  | cons x xs ih =>
    intro acc hacc
    exact ih (insertCandDesc x acc) (insertCandDesc_pairwise hacc)

/-- Characterization of the candidate set: `⟨i, q, d⟩` is a ranking
candidate exactly when position `i` carries the non-NaN score `q` and the
document `d`, and `d` passes the directory filter. -/
theorem mem_filteredHits_iff {corpus : List Doc} {scores : List Score}
    {dirs : Option (List String)} {x : Cand} :
    x ∈ filteredHits corpus scores dirs ↔
      scores[x.idx]? = some (Score.val x.score) ∧
      corpus[x.idx]? = some x.doc ∧ dirMatch dirs x.doc.path = true := by
  constructor
  · intro hx
    obtain ⟨e, he, hfe⟩ := List.mem_filterMap.mp hx
    obtain ⟨i, s, d⟩ := e
    cases s with
    | nan => simp at hfe
    | val q =>
      simp only at hfe
      by_cases hdm : dirMatch dirs d.path = true
      · rw [if_pos hdm] at hfe
        obtain rfl := Option.some.inj hfe
        have hz := List.mem_enum_iff_getElem?.mp he
        have hzc := List.getElem?_zip_eq_some.mp hz
        exact ⟨hzc.1, hzc.2, hdm⟩
      · rw [if_neg hdm] at hfe
        exact absurd hfe (by simp)
  · rintro ⟨hs, hc, hdm⟩
    refine List.mem_filterMap.mpr ⟨(x.idx, (Score.val x.score, x.doc)), ?_, ?_⟩
    · exact List.mem_enum_iff_getElem?.mpr (List.getElem?_zip_eq_some.mpr ⟨hs, hc⟩)
    · simp [hdm]

/-- Every yielded hit is the projection of some ranking candidate. -/
theorem searchScored_mem {corpus : List Doc} {scores : List Score}
    {dirs : Option (List String)} {limit : Nat} {hit : Hit}
    (h : hit ∈ searchScored corpus scores dirs limit) :
    ∃ x ∈ filteredHits corpus scores dirs,
      hit = ⟨x.doc.path, x.doc.title, x.score⟩ := by
  obtain ⟨x, hx, rfl⟩ := List.mem_map.mp h
  have hx' : x ∈ sortCandsDesc (filteredHits corpus scores dirs) :=
    (List.take_sublist _ _).mem hx
  exact ⟨x, (sortCandsDesc_perm _).mem_iff.mp hx', rfl⟩

/-- The wrapping loop raises exactly when some hit has a negative score. -/
theorem wrapHits_error_iff (hits : List Hit) :
    (∃ e, wrapHits hits = Except.error e) ↔ ∃ h ∈ hits, h.score < 0 := by
  induction hits with
  | nil => simp [wrapHits]
  | cons h t ih =>
    by_cases hneg : h.score < 0
    · simp only [wrapHits, mkSearchResult, if_pos hneg]
      exact ⟨fun _ => ⟨h, List.mem_cons_self h t, hneg⟩, fun _ => ⟨_, rfl⟩⟩
    · simp only [wrapHits, mkSearchResult, if_neg hneg]
      constructor
      · intro ⟨e, he⟩
        rcases ht : wrapHits t with e' | rs
        · obtain ⟨h', hm, hn⟩ := ih.mp ⟨e', ht⟩
          exact ⟨h', List.mem_cons_of_mem h hm, hn⟩
        · rw [ht] at he
          simp at he
      · intro ⟨h', hm, hn⟩
        rcases List.mem_cons.mp hm with rfl | hm'
        · exact absurd hn hneg
        · obtain ⟨e, he⟩ := ih.mpr ⟨h', hm', hn⟩
          rw [he]
          exact ⟨e, rfl⟩

/-! ### C4: NaN and negative score handling -/

/-- **C4 (counterexample).** With two documents both consisting of the one
term of the query, `BM25Okapi` floors the term's negative IDF to
`epsilon * average_idf`, which is itself negative (the rational `-2/5`
stands in for the float `0.25 * log 0.2`): `BM25Indexer.search` retains and
ranks both negative-scored documents, but wrapping those hits into
`SearchResult` raises a pydantic validation error — so at the wrapping
layer a negative score IS an error, contradicting the claim. -/
theorem c4_counterexample :
    bm25Search wsTok (fun _ => -(2 : ℚ) / 5)
        [⟨"a.md", "A", "hello"⟩, ⟨"b.md", "B", "hello"⟩] "hello" 10 none =
      [⟨"a.md", "A", -(2 / 5)⟩, ⟨"b.md", "B", -(2 / 5)⟩] ∧
    kbIndexerSearch wsTok (fun _ => -(2 : ℚ) / 5)
        [⟨"a.md", "A", "hello"⟩, ⟨"b.md", "B", "hello"⟩] "hello" 10 none =
      Except.error "ValidationError: score >= 0 required" := by
  constructor <;>
    norm_num +decide [kbIndexerSearch, wrapHits, mkSearchResult, bm25Search, searchScored,
      getScores, bm25DocScore, termFreq, totalTokens, filteredHits, sortCandsDesc,
      insertCandDesc, dirMatch, wsTok, wsTokAux, String.mk, k1, bParam, List.enum,
      List.filterMap_cons, List.foldl_cons, List.foldl_nil]

/-- **C4 (amended).** In `BM25Indexer.search`, NaN scores are excluded from
the ranking (every candidate carries a non-NaN score from the score
vector), scores that are not NaN — negative ones included — are retained
whenever the document passes the directory filter, and the yielded hits are
ordered by descending score; but the wrapping of hits into `SearchResult`
raises exactly when some hit's score is negative. -/
theorem c4_score_handling (corpus : List Doc) (scores : List Score)
    (dirs : Option (List String)) (limit : Nat) :
    (∀ x ∈ filteredHits corpus scores dirs,
       scores[x.idx]? = some (Score.val x.score)) ∧
    (∀ i : Nat, ∀ q : ℚ, ∀ d : Doc, scores[i]? = some (Score.val q) →
       corpus[i]? = some d → dirMatch dirs d.path = true →
       (⟨i, q, d⟩ : Cand) ∈ filteredHits corpus scores dirs) ∧
    (searchScored corpus scores dirs limit).Pairwise
      (fun a b => b.score ≤ a.score) ∧
    (∀ hits : List Hit,
       (∃ e, wrapHits hits = Except.error e) ↔ ∃ h ∈ hits, h.score < 0) := by
  refine ⟨?_, ?_, ?_, wrapHits_error_iff⟩
  · intro x hx
    exact (mem_filteredHits_iff.mp hx).1
  · intro i q d hs hc hdm
    exact mem_filteredHits_iff.mpr ⟨hs, hc, hdm⟩
  · have hsorted := sortCandsDesc_sorted (filteredHits corpus scores dirs)
    have htake := hsorted.sublist (List.take_sublist limit _)
    exact List.pairwise_map.mpr htake

/-- Witness for C4 (amended) at concrete inputs: a negative-scored
candidate is retained in the ranking. -/
theorem c4_score_handling_witness :
    (⟨0, -1, ⟨"a.md", "A", "x"⟩⟩ : Cand) ∈
      filteredHits [⟨"a.md", "A", "x"⟩] [Score.val (-1)] none :=
  (c4_score_handling [⟨"a.md", "A", "x"⟩] [Score.val (-1)] none 10).2.1 0 (-1)
    ⟨"a.md", "A", "x"⟩ rfl rfl rfl

/-! ### C5: query terms absent from every document -/

/-- **C5 (counterexample).** A one-document corpus and a query whose single
term appears nowhere: every BM25 score is exactly `0.0` (not NaN), nothing
is filtered, and the search returns the document with score 0 — not the
empty result sequence the claim states. -/
theorem c5_counterexample :
    bm25Search wsTok (fun _ => (1 : ℚ)) [⟨"a.md", "T", "JavaScript"⟩]
        "Python" 10 none = [⟨"a.md", "T", 0⟩] ∧
    wsTok "Python" = ["Python"] ∧
    wsTok "JavaScript" = ["JavaScript"] ∧
    ("Python" : String) ∉ wsTok "JavaScript" := by
  refine ⟨?_, by decide, by decide, by decide⟩
  norm_num +decide [bm25Search, searchScored, getScores, bm25DocScore, termFreq,
    totalTokens, filteredHits, sortCandsDesc, insertCandDesc, dirMatch, wsTok,
    wsTokAux, String.mk, k1, bParam, List.enum, List.filterMap_cons,
    List.foldl_cons, List.foldl_nil]

theorem insertCandDesc_of_not_lt {x : Cand} {l : List Cand}
    (h : ∀ y ∈ l, ¬ y.score < x.score) : insertCandDesc x l = l ++ [x] := by
  induction l with
  | nil => rfl
  | cons y ys ih =>
    simp only [insertCandDesc, if_neg (h y (List.mem_cons_self y ys)),
      List.cons_append, List.cons.injEq, true_and]
    exact ih (fun z hz => h z (List.mem_cons_of_mem y hz))

/-- The stable sort is the identity on a list of all-zero scores. -/
theorem sortCandsDesc_of_all_zero {l : List Cand} (h : ∀ y ∈ l, y.score = 0) :
    sortCandsDesc l = l := by
  suffices haux : ∀ (xs acc : List Cand), (∀ y ∈ acc, y.score = 0) →
      (∀ y ∈ xs, y.score = 0) →
      List.foldl (fun acc x => insertCandDesc x acc) acc xs = acc ++ xs by
    simpa using haux l [] (by simp) h
  intro xs
  induction xs with
  | nil => intro acc _ _; simp
  | cons x rest ih =>
    intro acc hacc hxs
    have hx : x.score = 0 := hxs x (List.mem_cons_self x rest)
    have hins : insertCandDesc x acc = acc ++ [x] :=
      insertCandDesc_of_not_lt (fun y hy => by
        rw [hacc y hy, hx]
        exact lt_irrefl 0)
    have hacc' : ∀ y ∈ acc ++ [x], y.score = 0 := by
      intro y hy
      rcases List.mem_append.mp hy with hy | hy
      · exact hacc y hy
      · rw [List.mem_singleton.mp hy]
        exact hx
    have hrest : ∀ y ∈ rest, y.score = 0 :=
      fun y hy => hxs y (List.mem_cons_of_mem x hy)
    simp only [List.foldl_cons]
    rw [hins, ih (acc ++ [x]) hacc' hrest, List.append_assoc]
    rfl

theorem filteredHits_zero_aux (dirs : Option (List String)) :
    ∀ (corpus : List Doc) (n : Nat),
      (List.filterMap
          (fun e : Nat × Score × Doc =>
            match e.2.1 with
            | Score.nan => none
            | Score.val q =>
              if dirMatch dirs e.2.2.path then some (⟨e.1, q, e.2.2⟩ : Cand) else none)
          (List.enumFrom n ((corpus.map (fun _ => Score.val 0)).zip corpus))).map
        (fun x => (⟨x.doc.path, x.doc.title, x.score⟩ : Hit))
      = (corpus.filter (fun d => dirMatch dirs d.path)).map
          (fun d => (⟨d.path, d.title, 0⟩ : Hit)) := by
  intro corpus
  induction corpus with
  | nil => intro n; rfl
  | cons d rest ih =>
    intro n
    by_cases hdm : dirMatch dirs d.path = true
    · simp only [List.map_cons, List.zip_cons_cons, List.enumFrom_cons,
        List.filterMap_cons, List.filter_cons, hdm, if_true]
      rw [ih (n + 1)]
    · have hdm' : dirMatch dirs d.path = false := Bool.eq_false_iff.mpr hdm
      simp only [List.map_cons, List.zip_cons_cons, List.enumFrom_cons,
        List.filterMap_cons, List.filter_cons, hdm', Bool.false_eq_true, if_false]
      exact ih (n + 1)

/-- On an all-zero score vector the candidate set projects to exactly the
documents passing the directory filter, in corpus order. -/
theorem filteredHits_map_all_zero (corpus : List Doc) (dirs : Option (List String)) :
    (filteredHits corpus (corpus.map (fun _ => Score.val 0)) dirs).map
        (fun x => (⟨x.doc.path, x.doc.title, x.score⟩ : Hit))
      = (corpus.filter (fun d => dirMatch dirs d.path)).map
          (fun d => (⟨d.path, d.title, 0⟩ : Hit)) :=
  filteredHits_zero_aux dirs corpus 0

/-- **C5 (amended).** For a non-empty query none of whose terms appears in
any document of a corpus that holds at least one token, every BM25 score is
exactly zero, so the search returns every document passing the directory
filter, in corpus order (the stable sort leaves the all-equal scores in
place), each with score 0, truncated to `limit` — in particular a non-empty
result list whenever `limit > 0` and no directory filter is given — rather
than no results. -/
theorem c5_zero_scores (tokenize : String → List String) (idf : String → ℚ)
    (corpus : List Doc) (query : String) (limit : Nat)
    (dirs : Option (List String))
    (hq : query.isEmpty = false)
    (habs : ∀ t ∈ tokenize query, ∀ d ∈ corpus, t ∉ tokenize d.content)
    (htok : totalTokens (corpus.map (fun d => tokenize d.content)) ≠ 0) :
    bm25Search tokenize idf corpus query limit dirs
      = ((corpus.filter (fun d => dirMatch dirs d.path)).take limit).map
          (fun d => (⟨d.path, d.title, 0⟩ : Hit)) ∧
    (dirs = none → 0 < limit →
      bm25Search tokenize idf corpus query limit dirs ≠ []) := by
  have hcne : corpus ≠ [] := by
    intro h
    subst h
    simp [totalTokens] at htok
  obtain ⟨d0, rest, rfl⟩ := List.exists_cons_of_ne_nil hcne
  have hscores : getScores idf ((d0 :: rest).map (fun d => tokenize d.content))
      (tokenize query)
      = (d0 :: rest).map (fun _ => Score.val 0) := by
    unfold getScores
    by_cases hqe : (tokenize query).isEmpty
    · rw [if_pos hqe, List.map_map]
      rfl
    · rw [if_neg hqe, if_neg htok, List.map_map]
      apply List.map_congr_left
      intro d hd
      simp only [Function.comp_apply]
      have hzero : bm25DocScore idf
          ((totalTokens ((d0 :: rest).map fun d => tokenize d.content) : ℚ) /
            (((d0 :: rest).map fun d => tokenize d.content).length : ℚ))
          (tokenize query) (tokenize d.content) = 0 := by
        unfold bm25DocScore
        apply List.sum_eq_zero
        intro y hy
        obtain ⟨t, ht, rfl⟩ := List.mem_map.mp hy
        have hf : termFreq t (tokenize d.content) = 0 := by
          unfold termFreq
          rw [List.count_eq_zero.mpr (habs t ht d hd)]
          simp
        rw [hf]
        simp
      rw [hzero]
  have hmain : bm25Search tokenize idf (d0 :: rest) query limit dirs
      = searchScored (d0 :: rest) ((d0 :: rest).map (fun _ => Score.val 0))
          dirs limit := by
    unfold bm25Search
    rw [hq, ← hscores]
    rfl
  have hall : ∀ y ∈ filteredHits (d0 :: rest)
      ((d0 :: rest).map (fun _ => Score.val 0)) dirs, y.score = 0 := by
    intro y hy
    have hs := (mem_filteredHits_iff.mp hy).1
    have hmem : Score.val y.score ∈ (d0 :: rest).map (fun _ => Score.val 0) := by
      obtain ⟨hl, hget⟩ := List.getElem?_eq_some.mp hs
      rw [← hget]
      exact List.getElem_mem hl
    obtain ⟨_, _, hv⟩ := List.mem_map.mp hmem
    simpa using hv.symm
  have hsearch : searchScored (d0 :: rest)
      ((d0 :: rest).map (fun _ => Score.val 0)) dirs limit
      = (((d0 :: rest).filter (fun d => dirMatch dirs d.path)).take limit).map
          (fun d => (⟨d.path, d.title, 0⟩ : Hit)) := by
    unfold searchScored
    rw [sortCandsDesc_of_all_zero hall, List.map_take, filteredHits_map_all_zero,
      ← List.map_take]
  refine ⟨hmain.trans hsearch, ?_⟩
  intro hdirs hlim
  rw [hmain, hsearch, hdirs]
  have hfilter : (fun d : Doc => dirMatch none d.path) = (fun _ => true) := rfl
  rw [hfilter, List.filter_true]
  apply List.ne_nil_of_length_pos
  rw [List.length_map, List.length_take]
  exact lt_min hlim (List.length_pos_of_ne_nil (List.cons_ne_nil d0 rest))

/-- Witness for C5 (amended): a two-document corpus and an absent query
term; the search returns both documents, in corpus order, scored 0. -/
theorem c5_zero_scores_witness :
    "Python".isEmpty = false ∧
    totalTokens ([(⟨"a.md", "T", "JavaScript"⟩ : Doc), ⟨"b.md", "U", "Java"⟩].map
      (fun d => wsTok d.content)) ≠ 0 ∧
    bm25Search wsTok (fun _ => (1 : ℚ))
      [⟨"a.md", "T", "JavaScript"⟩, ⟨"b.md", "U", "Java"⟩] "Python" 5 none
      = [⟨"a.md", "T", 0⟩, ⟨"b.md", "U", 0⟩] :=
  ⟨by decide, by decide,
   (c5_zero_scores wsTok (fun _ => 1)
     [⟨"a.md", "T", "JavaScript"⟩, ⟨"b.md", "U", "Java"⟩] "Python" 5 none
     (by decide) (by decide) (by decide)).1.trans (by decide)⟩

/-! ### C6: the directory filter -/

/-- **C6 (counterexample).** With the same `limit`, the filtered result set
need not be a subset of the unfiltered one: truncation to `limit = 1` keeps
only the best overall document (`a/one`), while the directory filter `"x"`
surfaces the lower-scored `x/two`, which the unfiltered search does not
return. -/
theorem c6_counterexample :
    (bm25Search wsTok (fun _ => (1 : ℚ))
        [⟨"a/one", "A", "python python"⟩, ⟨"x/two", "B", "python"⟩]
        "python" 1 (some ["x"])).map Hit.path = ["x/two"] ∧
    (bm25Search wsTok (fun _ => (1 : ℚ))
        [⟨"a/one", "A", "python python"⟩, ⟨"x/two", "B", "python"⟩]
        "python" 1 none).map Hit.path = ["a/one"] ∧
    ("x/two" : String) ∉ (["a/one"] : List String) := by
  refine ⟨?_, ?_, by decide⟩ <;>
    norm_num +decide [bm25Search, searchScored, getScores, bm25DocScore, termFreq,
      totalTokens, filteredHits, sortCandsDesc, insertCandDesc, dirMatch, strContains,
      containsChars, startsWithChars, wsTok, wsTokAux, String.mk, k1, bParam, List.enum,
      List.filterMap_cons, List.foldl_cons, List.foldl_nil]

/-- **C6 (amended).** Every path returned under a non-empty directory
filter contains one of the given directory strings as a substring of the
stored path; and when `limit` is at least the corpus size (so truncation
cannot interfere), the filtered result paths are a subset of the unfiltered
result paths. -/
theorem c6_dir_filter (corpus : List Doc) (scores : List Score)
    (ds : List String) (limit : Nat) :
    (ds ≠ [] → ∀ hit ∈ searchScored corpus scores (some ds) limit,
       ∃ d ∈ ds, strContains hit.path d = true) ∧
    (corpus.length ≤ limit →
       ∀ p ∈ (searchScored corpus scores (some ds) limit).map Hit.path,
         p ∈ (searchScored corpus scores none limit).map Hit.path) := by
  constructor
  · intro hds hit hhit
    obtain ⟨x, hx, rfl⟩ := searchScored_mem hhit
    have hdm := (mem_filteredHits_iff.mp hx).2.2
    have hdm' : (if ds.isEmpty then true else ds.any fun d => strContains x.doc.path d)
        = true := hdm
    rw [if_neg (by simpa using hds)] at hdm'
    obtain ⟨d, hd, hc⟩ := List.any_eq_true.mp hdm'
    exact ⟨d, hd, hc⟩
  · intro hlim p hp
    obtain ⟨hit, hhit, rfl⟩ := List.mem_map.mp hp
    obtain ⟨x, hx, rfl⟩ := searchScored_mem hhit
    obtain ⟨hs, hc, _⟩ := mem_filteredHits_iff.mp hx
    have hx' : x ∈ filteredHits corpus scores none :=
      mem_filteredHits_iff.mpr ⟨hs, hc, rfl⟩
    have hlen : (sortCandsDesc (filteredHits corpus scores none)).length ≤ limit := by
      rw [(sortCandsDesc_perm _).length_eq]
      calc (filteredHits corpus scores none).length
          ≤ (scores.zip corpus).enum.length := List.length_filterMap_le _ _
        _ = (scores.zip corpus).length := List.enum_length
        _ ≤ corpus.length := by rw [List.length_zip]; exact min_le_right _ _
        _ ≤ limit := hlim
    have hmem : x ∈ sortCandsDesc (filteredHits corpus scores none) :=
      (sortCandsDesc_perm _).mem_iff.mpr hx'
    unfold searchScored
    rw [List.take_of_length_le hlen]
    exact List.mem_map_of_mem Hit.path
      (List.mem_map_of_mem (fun y : Cand => (⟨y.doc.path, y.doc.title, y.score⟩ : Hit)) hmem)

/-- Witness for C6 (amended) at concrete inputs: the filter list is
nonempty, `limit = 5` is at least the corpus size, and a path returned
under the filter is indeed returned without it. -/
theorem c6_dir_filter_witness :
    (["x"] : List String) ≠ [] ∧
    [(⟨"a/one", "A", "u"⟩ : Doc), ⟨"x/two", "B", "v"⟩].length ≤ 5 ∧
    ("x/two" : String) ∈ (searchScored [⟨"a/one", "A", "u"⟩, ⟨"x/two", "B", "v"⟩]
        [Score.val 2, Score.val 1] none 5).map Hit.path :=
  ⟨by decide, by decide,
   (c6_dir_filter [⟨"a/one", "A", "u"⟩, ⟨"x/two", "B", "v"⟩]
      [Score.val 2, Score.val 1] ["x"] 5).2 (by decide) "x/two" (by decide)⟩

/-! ## Federated search (`KnowledgeBaseSearcher`, search.py)

Only the two fields the searcher reads are modelled; `perKB` abstracts
"the `SearchResult` list produced by the cached indexer of the knowledge
base with this name, for the query/dirs/limit at hand". -/

/-- A knowledge-base configuration as consumed by the searcher. -/
structure KBConfig where
  name : String
  enabled : Bool
deriving DecidableEq, Repr

/-- `KnowledgeBaseSearcher._filter_configs` (search.py lines 85-100):
`None` keeps every enabled config; a name list keeps the configs whose
name is in it and which are enabled. -/
def filter_configs (configs : List KBConfig) (names : Option (List String)) :
    List KBConfig :=
  match names with
  | none => configs.filter (fun c => c.enabled)
  | some ns => configs.filter (fun c => ns.contains c.name && c.enabled)

/-- The per-KB threshold filter of search.py line 77. -/
def thresholdFilter (threshold : ℚ) (rs : List SearchResult) : List SearchResult :=
  rs.filter (fun r => threshold ≤ r.score)

/-- The `all_results` accumulation of search.py lines 70-78: every
participating config (the loop re-checks `enabled`) contributes its
threshold-filtered per-KB results, concatenated in config order. -/
def federatedRaw (perKB : String → List SearchResult) (configs : List KBConfig)
    (names : Option (List String)) (threshold : ℚ) : List SearchResult :=
  (filter_configs configs names).flatMap (fun c =>
    if c.enabled then thresholdFilter threshold (perKB c.name) else [])

/-- Stable descending insertion for merged results (search.py line 81). -/
def insertResDesc (x : SearchResult) : List SearchResult → List SearchResult
  | [] => [x]
  | y :: ys => if y.score < x.score then x :: y :: ys else y :: insertResDesc x ys

/-- The stable descending sort of the merged results. -/
def sortResultsDesc (l : List SearchResult) : List SearchResult :=
  l.foldl (fun acc x => insertResDesc x acc) []

/-- `KnowledgeBaseSearcher.search` (search.py lines 40-83): empty query
yields nothing; otherwise merge the participating knowledge bases' results,
sort by descending score and truncate to `limit`. -/
def federatedSearch (perKB : String → List SearchResult) (configs : List KBConfig)
    (query : String) (names : Option (List String)) (threshold : ℚ)
    (limit : Nat) : List SearchResult :=
  if query.isEmpty then []
  else (sortResultsDesc (federatedRaw perKB configs names threshold)).take limit

/-- **C7.** A knowledge base contributes results to the federation exactly
when it is enabled and either no name filter was given or its name is in
the filter; a disabled or unnamed knowledge base contributes nothing (the
federation is a total function on lists — no error path exists). -/
theorem c7_federation_participation (perKB : String → List SearchResult)
    (configs : List KBConfig) (names : Option (List String)) (threshold : ℚ)
    (r : SearchResult) :
    r ∈ federatedRaw perKB configs names threshold ↔
      ∃ c ∈ configs, c.enabled = true ∧
        (names = none ∨ ∃ ns, names = some ns ∧ c.name ∈ ns) ∧
        r ∈ perKB c.name ∧ threshold ≤ r.score := by
  cases names with
  | none =>
    simp only [federatedRaw, filter_configs, List.mem_flatMap, List.mem_filter,
      thresholdFilter]
    constructor
    · rintro ⟨c, ⟨hc, he⟩, hr⟩
      rw [if_pos he] at hr
      have hr' := List.mem_filter.mp hr
      exact ⟨c, hc, he, by simp, hr'.1, by simpa using hr'.2⟩
    · rintro ⟨c, hc, he, -, hr, hth⟩
      refine ⟨c, ⟨hc, he⟩, ?_⟩
      rw [if_pos he]
      exact List.mem_filter.mpr ⟨hr, by simpa using hth⟩
  | some ns =>
    simp only [federatedRaw, filter_configs, List.mem_flatMap, List.mem_filter,
      thresholdFilter, Bool.and_eq_true]
    constructor
    · rintro ⟨c, ⟨hc, hn, he⟩, hr⟩
      rw [if_pos he] at hr
      have hr' := List.mem_filter.mp hr
      exact ⟨c, hc, he, Or.inr ⟨ns, rfl, by simpa using hn⟩, hr'.1, by simpa using hr'.2⟩
    · rintro ⟨c, hc, he, hn, hr, hth⟩
      rcases hn with hn | ⟨ns', hns', hn⟩
      · exact absurd hn (by simp)
      · obtain rfl := Option.some.inj hns'
        refine ⟨c, ⟨hc, by simpa using hn, he⟩, ?_⟩
        rw [if_pos he]
        exact List.mem_filter.mpr ⟨hr, by simpa using hth⟩

/-- Witness for C7 at concrete inputs: an enabled named KB's surviving
result is in the federation. -/
theorem c7_federation_participation_witness :
    (⟨⟨"p", "t", "c"⟩, 1, []⟩ : SearchResult) ∈
      federatedRaw (fun _ => [⟨⟨"p", "t", "c"⟩, 1, []⟩])
        [⟨"kb1", true⟩, ⟨"kb2", false⟩] (some ["kb1"]) (1 / 10) :=
  (c7_federation_participation (fun _ => [⟨⟨"p", "t", "c"⟩, 1, []⟩])
      [⟨"kb1", true⟩, ⟨"kb2", false⟩] (some ["kb1"]) (1 / 10) ⟨⟨"p", "t", "c"⟩, 1, []⟩).mpr
    ⟨⟨"kb1", true⟩, by decide, rfl, Or.inr ⟨["kb1"], rfl, by decide⟩,
     List.mem_cons_self _ _, by norm_num⟩

/-! ## Title extraction (`KnowledgeBaseIndexer._extract_title`, indexer.py
lines 370-384, and the `path.stem` default passed by `_load_document` at
line 337) -/

/-- ASCII whitespace stripped by Python's `str.strip()`. -/
def isPyWhitespace (c : Char) : Bool :=
  c = ' ' || c = '\t' || c = '\n' || c = '\r' || c = '\x0b' || c = '\x0c'

/-- Drop leading Python whitespace from a character list. -/
def dropLeadingWS : List Char → List Char
  | [] => []
  | c :: cs => if isPyWhitespace c then dropLeadingWS cs else c :: cs

/-- Python `str.strip()`: remove whitespace from both ends. -/
def pyStrip (s : String) : String :=
  String.mk ((dropLeadingWS ((dropLeadingWS s.data).reverse)).reverse)

/-- `content.split("\n")`: split on every newline, keeping empty pieces. -/
def splitLinesAux : List Char → List Char → List String
  | [], acc => [String.mk acc.reverse]
  | c :: cs, acc =>
    if c = '\n' then String.mk acc.reverse :: splitLinesAux cs []
    else splitLinesAux cs (c :: acc)

/-- Python `content.split("\n")`. -/
def splitLines (s : String) : List String := splitLinesAux s.data []

/-- The loop body of `_extract_title`: strip each line; on the first
stripped line starting with `"# "`, return the text after the marker,
stripped; otherwise fall through to the default. -/
def extractTitleLines : List String → String → String
  | [], default => default
  | line :: rest, default =>
    if startsWithChars (pyStrip line).data ['#', ' '] then
      pyStrip (String.mk ((pyStrip line).data.drop 2))
    else extractTitleLines rest default

/-- `KnowledgeBaseIndexer._extract_title(content, default)`. -/
def extract_title (content : String) (default : String) : String :=
  extractTitleLines (splitLines content) default

/-- Modelled from the spec sentence under test (claim C8), for comparison
with the code: the first line that literally *begins with* the `"# "`
marker — no stripping before the check — provides the title; absent such a
line, the default is used. -/
def specExtractTitleLines : List String → String → String
  | [], default => default
  | line :: rest, default =>
    if startsWithChars line.data ['#', ' '] then
      pyStrip (String.mk (line.data.drop 2))
    else specExtractTitleLines rest default

/-- The claim's reading of title extraction. -/
def specExtractTitle (content : String) (default : String) : String :=
  specExtractTitleLines (splitLines content) default

/-- Index of the last `'.'` in a character list, if any (Python
`str.rfind('.')`). -/
def lastDotIdx : List Char → Option Nat
  | [] => none
  | c :: cs =>
    match lastDotIdx cs with
    | some i => some (i + 1)
    | none => if c = '.' then some 0 else none

/-- `pathlib.PurePath.stem`: the final path component without its last
suffix; a leading or trailing dot does not open a suffix. -/
def pathStem (p : String) : String :=
  let name := (p.splitOn "/").getLastD ""
  match lastDotIdx name.data with
  | some i =>
    if 0 < i ∧ i < name.data.length - 1 then String.mk (name.data.take i) else name
  | none => name

/-- The title of a loaded document (`_load_document` lines 336-337): the
extracted title with the file's stem as default. -/
def loadDocTitle (path content : String) : String :=
  extract_title content (pathStem path)

/-- **C8 (counterexample).** The line `"  # Alpha"` does not literally
begin with `"# "`, so by the claim the title should be the default; but the
code strips the line first and returns `"Alpha"`. -/
theorem c8_counterexample :
    extract_title "  # Alpha" "guide" = "Alpha" ∧
    specExtractTitle "  # Alpha" "guide" = "guide" ∧
    ("Alpha" : String) ≠ "guide" := by
  refine ⟨?_, ?_, by decide⟩ <;> decide

/-- **C8 (amended).** Lines are stripped of surrounding whitespace before
the check: the first line whose *stripped* form begins with `"# "` yields
the title (the stripped text after the marker); if no stripped line begins
with the marker, the default is returned — and `_load_document` passes the
file's base name without its last extension (`path.stem`) as that
default. -/
theorem c8_title_extraction (content default : String) :
    ((splitLines content).find?
        (fun l => startsWithChars (pyStrip l).data ['#', ' ']) = none →
      extract_title content default = default) ∧
    (∀ l : String, (splitLines content).find?
        (fun l => startsWithChars (pyStrip l).data ['#', ' ']) = some l →
      extract_title content default = pyStrip (String.mk ((pyStrip l).data.drop 2))) ∧
    (∀ p : String, (splitLines content).find?
        (fun l => startsWithChars (pyStrip l).data ['#', ' ']) = none →
      loadDocTitle p content = pathStem p) := by
  suffices h : ∀ (d : String) (lines : List String),
      (lines.find? (fun l => startsWithChars (pyStrip l).data ['#', ' ']) = none →
        extractTitleLines lines d = d) ∧
      (∀ l : String, lines.find?
          (fun l => startsWithChars (pyStrip l).data ['#', ' ']) = some l →
        extractTitleLines lines d =
          pyStrip (String.mk ((pyStrip l).data.drop 2))) by
    refine ⟨(h default (splitLines content)).1, (h default (splitLines content)).2, ?_⟩
    intro p hp
    exact (h (pathStem p) (splitLines content)).1 hp
  intro d lines
  induction lines with
  | nil => exact ⟨fun _ => rfl, fun l hl => by simp at hl⟩
  | cons line rest ih =>
    by_cases hsw : startsWithChars (pyStrip line).data ['#', ' '] = true
    · constructor
      · intro hnone
        rw [List.find?_cons_of_pos (p := fun s => startsWithChars (pyStrip s).data ['#', ' '])
          rest hsw] at hnone
        exact absurd hnone (by simp)
      · intro l hl
        rw [List.find?_cons_of_pos (p := fun s => startsWithChars (pyStrip s).data ['#', ' '])
          rest hsw] at hl
        obtain rfl := Option.some.inj hl
        simp only [extractTitleLines, if_pos hsw]
    · constructor
      · intro hnone
        rw [List.find?_cons_of_neg (p := fun s => startsWithChars (pyStrip s).data ['#', ' '])
          rest hsw] at hnone
        simp only [extractTitleLines, if_neg hsw]
        exact ih.1 hnone
      · intro l hl
        rw [List.find?_cons_of_neg (p := fun s => startsWithChars (pyStrip s).data ['#', ' '])
          rest hsw] at hl
        simp only [extractTitleLines, if_neg hsw]
        exact ih.2 l hl

/-- Witness for C8 (amended) at concrete content: the first stripped line
carrying the marker supplies the title, for a heading in mid-document. -/
theorem c8_title_extraction_witness :
    (splitLines "intro\n  # Hello World \nrest").find?
        (fun l => startsWithChars (pyStrip l).data ['#', ' ']) =
      some "  # Hello World " ∧
    extract_title "intro\n  # Hello World \nrest" "fallback" = "Hello World" :=
  ⟨by decide,
   ((c8_title_extraction "intro\n  # Hello World \nrest" "fallback").2.1
     "  # Hello World " (by decide)).trans (by decide)⟩

/-! ## Index information (`KnowledgeBaseIndexer.get_index_info`,
indexer.py lines 473-492) -/

/-- The `IndexInfo` model (models.py lines 80-88). -/
structure IndexInfo where
  knowledge_base : String
  document_count : Nat
  index_path : String
  created_at : String
  updated_at : Option String
deriving DecidableEq, Repr

/-- `KnowledgeBaseIndexer.get_index_info`: `None` when the index directory
does not exist; otherwise construct a `BM25Indexer` over it (a no-op on the
directory, which exists) and report its document count. `now` abstracts
`datetime.now().isoformat()`; the code fills both timestamps with it. -/
def get_index_info (fs : IndexDirFS) (kbName indexPath now : String) :
    Option IndexInfo :=
  if fs.dirExists then
    some ⟨kbName, (loadIndex fs).2.length, indexPath, now, some now⟩
  else none

/-- `KnowledgeBaseIndexer.search` at the file-system level (indexer.py
lines 494-531): constructing the `BM25Indexer` creates the index directory
and loads the corpus; the search itself writes nothing. -/
def kbSearchFS (fs : IndexDirFS) (tokenize : String → List String)
    (idf : String → ℚ) (query : String) (limit : Nat)
    (dirs : Option (List String)) : IndexDirFS × List Hit :=
  ((loadIndex fs).1,
   bm25Search tokenize idf (loadIndex fs).2 query limit dirs)

/-- **C9.** Searching a never-indexed knowledge base creates the index
directory (via the `BM25Indexer` constructor), after which
`get_index_info` no longer reports `None` but an `IndexInfo` with document
count 0; and `get_index_info` reports `None` exactly when the index
directory does not exist. -/
theorem c9_search_creates_index_dir (fs : IndexDirFS)
    (tokenize : String → List String) (idf : String → ℚ)
    (query : String) (limit : Nat) (dirs : Option (List String))
    (kbName indexPath now : String)
    (hnoidx : fs.corpusFile = none) :
    get_index_info (kbSearchFS fs tokenize idf query limit dirs).1
        kbName indexPath now =
      some ⟨kbName, 0, indexPath, now, some now⟩ ∧
    (∀ fs₂ : IndexDirFS,
       get_index_info fs₂ kbName indexPath now = none ↔ fs₂.dirExists = false) := by
  constructor
  · simp [kbSearchFS, get_index_info, loadIndex, hnoidx]
  · intro fs₂
    cases h : fs₂.dirExists <;> simp [get_index_info, h]

/-- Witness for C9: a file system with no index directory and no corpus
artifact. -/
theorem c9_search_creates_index_dir_witness :
    get_index_info (kbSearchFS ⟨false, none⟩ (fun _ => []) (fun _ => 0)
        "q" 10 none).1 "kb" "/kb/.winwin-index" "2026-01-01T00:00:00" =
      some ⟨"kb", 0, "/kb/.winwin-index", "2026-01-01T00:00:00",
        some "2026-01-01T00:00:00"⟩ ∧
    get_index_info ⟨false, none⟩ "kb" "/kb/.winwin-index" "2026-01-01T00:00:00"
      = none := by
  refine ⟨(c9_search_creates_index_dir ⟨false, none⟩ (fun _ => []) (fun _ => 0)
    "q" 10 none "kb" "/kb/.winwin-index" "2026-01-01T00:00:00" rfl).1, ?_⟩
  exact ((c9_search_creates_index_dir ⟨false, none⟩ (fun _ => []) (fun _ => 0)
    "q" 10 none "kb" "/kb/.winwin-index" "2026-01-01T00:00:00" rfl).2
      ⟨false, none⟩).mpr rfl

/-! ## `SearchRequest` validation (models.py lines 67-77) -/

/-- The pydantic `SearchRequest` model. -/
structure SearchRequest where
  query : String
  knowledge_bases : Option (List String)
  dirs : Option (List String)
  max_results : Int
  threshold : ℚ
  format : String
  highlight : Bool
  with_content : Bool
deriving DecidableEq, Repr

/-- pydantic validation on `SearchRequest` construction: `query` has
`min_length=1`, `max_results` is `ge=1, le=100`, `threshold` is
`ge=0.0, le=1.0`, `format` must match `^(text|json)$`; the remaining
fields are unconstrained. A failed validation raises, modelled as
`none`. -/
def mkSearchRequest (query : String) (knowledge_bases dirs : Option (List String))
    (max_results : Int) (threshold : ℚ) (format : String)
    (highlight with_content : Bool) : Option SearchRequest :=
  if 1 ≤ query.length ∧ 1 ≤ max_results ∧ max_results ≤ 100 ∧
      0 ≤ threshold ∧ threshold ≤ 1 ∧ (format = "text" ∨ format = "json") then
    some ⟨query, knowledge_bases, dirs, max_results, threshold, format,
      highlight, with_content⟩
  else none

/-- **C10.** Constructing a `SearchRequest` succeeds exactly when the query
is non-empty, `max_results ∈ [1, 100]`, `threshold ∈ [0, 1]` and the format
is `"text"` or `"json"`; in particular a threshold above 1 is always
rejected. -/
theorem c10_searchrequest_validation (query : String)
    (knowledge_bases dirs : Option (List String)) (max_results : Int)
    (threshold : ℚ) (format : String) (highlight with_content : Bool) :
    ((mkSearchRequest query knowledge_bases dirs max_results threshold format
        highlight with_content).isSome ↔
      (query ≠ "" ∧ 1 ≤ max_results ∧ max_results ≤ 100 ∧
       0 ≤ threshold ∧ threshold ≤ 1 ∧ (format = "text" ∨ format = "json"))) ∧
    (1 < threshold →
      mkSearchRequest query knowledge_bases dirs max_results threshold format
        highlight with_content = none) := by
  have hq0 : query.length = 0 ↔ query = "" := by
    cases query with
    | mk data =>
      simp only [String.length]
      constructor
      · intro h
        have hd : data = [] := List.length_eq_zero.mp (by simpa using h)
        rw [hd]
      · intro h
        have hd : data = [] := congrArg String.data h
        simp [hd]
  have hq : 1 ≤ query.length ↔ query ≠ "" := by
    rw [Nat.one_le_iff_ne_zero]
    exact not_congr hq0
  constructor
  · unfold mkSearchRequest
    split
    · rename_i hcond
      simpa using ⟨hq.mp hcond.1, hcond.2⟩
    · rename_i hcond
      simp only [Option.isSome_none, Bool.false_eq_true, false_iff]
      intro hc
      exact hcond ⟨hq.mpr hc.1, hc.2⟩
  · intro hth
    unfold mkSearchRequest
    rw [if_neg]
    intro hc
    exact absurd hc.2.2.2.2.1 (not_le.mpr hth)

/-- Witness for C10: a valid request is accepted; a threshold above 1 is
rejected. -/
theorem c10_searchrequest_validation_witness :
    (mkSearchRequest "python" none none 10 (1 / 10) "text" true false).isSome ∧
    mkSearchRequest "python" none none 10 (3 / 2) "json" true false = none := by
  constructor
  · exact (c10_searchrequest_validation "python" none none 10 (1 / 10) "text"
      true false).1.mpr ⟨by decide, by decide, by decide, by norm_num, by norm_num,
        Or.inl rfl⟩
  · exact (c10_searchrequest_validation "python" none none 10 (3 / 2) "json"
      true false).2 (by norm_num)

end WinwinKB
